import Mathlib

/-!
# chessGameGo: the connection hub of `main.go`

A shallow embedding of the hub in `main.go`: the process-wide variables
(`clients`, `gameState`, `moveHistory`, `chatHistory`, `whiteAssigned`,
`blackAssigned`), the registry operations `assignColor` / `removeClient`,
the fan-out `broadcastMessage`, the snapshot `sendGameState` and the message
switch of `wsHandler`.

Conventions of the embedding.
* A `*websocket.Conn` is a natural number (pointer identity).
* The Go map `clients` is an association list; its list order stands for the
  (unspecified) enumeration order of `range clients`.
* `encoding/json` is outside the program: `json.Unmarshal` and `json.Marshal`
  are parameters `unmarshal` and `marshal`.
* Every `conn.WriteMessage` call is recorded as a `Write`; which calls return
  an error is a parameter `fails`.
* Handlers run one at a time (the sequential semantics of the code).
-/

set_option linter.dupNamespace false

namespace ChessGameGo

/-- Identity of a `*websocket.Conn`. -/
abbrev Conn := Nat

/-- The Go struct `Client`. -/
structure Client where
  conn : Conn
  color : String
deriving DecidableEq, Repr

/-- The Go struct `Message` (the field `Type` is spelled `Typ`). -/
structure Message where
  Typ : String := ""
  From : String := ""
  To : String := ""
  Promotion : String := ""
  Message : String := ""
  Color : String := ""
  Fen : String := ""
  MoveHistory : String := ""
  ChatHistory : String := ""
deriving DecidableEq, Repr

/-- The package-level variables of `main.go`. -/
structure State where
  clients : List (Conn × Client)
  gameState : String
  moveHistory : List String
  chatHistory : List String
  whiteAssigned : Bool
  blackAssigned : Bool
deriving DecidableEq, Repr

/-- One call `conn.WriteMessage(websocket.TextMessage, payload)`. -/
structure Write where
  conn : Conn
  payload : String
deriving DecidableEq, Repr

/-- The initial value of `gameState` (line 42). -/
def initialFen : String := "rnbqkbnr/pppppppp/8/8/8/8/PPPPPPPP/RNBQKBNR w KQkq - 0 1"

/-- The string literal assigned to `gameState` by the `"restart"` case (line 195). -/
def restartFen : String := "rnbqkbnr/pppppppp/8/8/8/8/PPPPPPPP/RNBQKBNR w KQkq - 0 1"

/-- The variables as the `var ( ... )` block initialises them. -/
def initState : State :=
  { clients := []
    gameState := initialFen
    moveHistory := []
    chatHistory := []
    whiteAssigned := false
    blackAssigned := false }

/-- Map read `clients[conn]` with the `exists` flag. -/
def mapLookup (conn : Conn) : List (Conn × Client) → Option Client
  | [] => none
  | (k, v) :: rest => if k = conn then some v else mapLookup conn rest

/-- Map deletion `delete(clients, conn)`. -/
def mapDelete (conn : Conn) (m : List (Conn × Client)) : List (Conn × Client) :=
  m.filter (fun e => decide (e.1 ≠ conn))

/-- Map store `clients[conn] = client`: any old entry of the key is replaced. -/
def mapInsert (conn : Conn) (client : Client) (m : List (Conn × Client)) :
    List (Conn × Client) :=
  (conn, client) :: mapDelete conn m

/-- The keys of the map, in enumeration order. -/
def keys (m : List (Conn × Client)) : List Conn := m.map Prod.fst

/-- The function `assignColor`: the role and the updated variables. -/
def assignColor (s : State) (_conn : Conn) : String × State :=
  if !s.whiteAssigned then
    ("white", { s with whiteAssigned := true })
  else if !s.blackAssigned then
    ("black", { s with blackAssigned := true })
  else
    ("", s)

/-- Lines 125-129 of `wsHandler`: `assignColor`, then the store into `clients`. -/
def register (s : State) (conn : Conn) : String × State :=
  let r := assignColor s conn
  (r.1, { r.2 with clients := mapInsert conn { conn := conn, color := r.1 } r.2.clients })

/-- The function `removeClient`. -/
def removeClient (s : State) (conn : Conn) : State :=
  match mapLookup conn s.clients with
  | some client =>
    let s1 :=
      if client.color = "white" then { s with whiteAssigned := false }
      else if client.color = "black" then { s with blackAssigned := false }
      else s
    { s1 with clients := mapDelete conn s1.clients }
  | none => s

/-- The body of the `range clients` loop of `broadcastMessage`, over the keys still to be
enumerated. A key deleted before it is reached is not produced (Go's `range` rule). -/
def broadcastLoop (message : String) (fails : Conn → Bool) :
    List Conn → State → State × List Write
  | [], s => (s, [])
  | conn :: rest, s =>
    match mapLookup conn s.clients with
    | none => broadcastLoop message fails rest s
    | some _ =>
      let s1 := if fails conn then removeClient s conn else s
      let r := broadcastLoop message fails rest s1
      (r.1, { conn := conn, payload := message } :: r.2)

/-- The function `broadcastMessage`: the variables afterwards and the writes made, in order. -/
def broadcastMessage (s : State) (message : String) (fails : Conn → Bool) :
    State × List Write :=
  broadcastLoop message fails (keys s.clients) s

/-- The call `strings.Join(xs, "")`. -/
def joinStrings (xs : List String) : String := xs.foldl (fun acc x => acc ++ x) ""

/-- The message built by `sendGameState`. -/
def stateMsg (s : State) : Message :=
  { Typ := "gameState"
    Fen := s.gameState
    MoveHistory := joinStrings s.moveHistory
    ChatHistory := joinStrings s.chatHistory }

/-- The function `sendGameState`: it only writes to `conn`. -/
def sendGameState (marshal : Message → String) (s : State) (conn : Conn) :
    State × List Write :=
  (s, [{ conn := conn, payload := marshal (stateMsg s) }])

/-- Lines 125-141 of `wsHandler`: what happens to a freshly upgraded connection before its
read loop starts. Returns the handler's local `client`, the variables and the writes. -/
def acceptConn (marshal : Message → String) (s : State) (conn : Conn) :
    Client × State × List Write :=
  let r := register s conn
  let colorMsg : Message := { Typ := "color", Color := r.1 }
  let w1 : Write := { conn := conn, payload := marshal colorMsg }
  let g := sendGameState marshal r.2 conn
  ({ conn := conn, color := r.1 }, g.1, w1 :: g.2)

/-- The call `fmt.Sprintf("<p>%s: %s-%s</p>", color, from, to)` of the `"move"` case. -/
def moveRecord (color from_ to_ : String) : String :=
  "<p>" ++ color ++ ": " ++ from_ ++ "-" ++ to_ ++ "</p>"

/-- The call `fmt.Sprintf("<p>%s: %s</p>", prefix, text)` of the `"chat"` case. -/
def chatRecord (speaker text : String) : String :=
  "<p>" ++ speaker ++ ": " ++ text ++ "</p>"

/-- The local `prefix` of the `"chat"` case. -/
def chatPrefix (client : Client) : String :=
  if client.color ≠ "" then client.color else "Spectator"

/-- The `switch msg.Type` of `wsHandler` (lines 174-199), for the handler whose local
variable is `client`, on the inbound bytes `msgBytes` decoded as `msg`. -/
def dispatch (marshal : Message → String) (s : State) (client : Client)
    (msgBytes : String) (msg : Message) (fails : Conn → Bool) : State × List Write :=
  if msg.Typ = "move" then
    if client.color ≠ "" then
      let s1 := { s with gameState := msg.Fen }
      let s2 := { s1 with
        moveHistory := s1.moveHistory ++ [moveRecord client.color msg.From msg.To] }
      broadcastMessage s2 msgBytes fails
    else (s, [])
  else if msg.Typ = "chat" then
    let chatMsg := chatRecord (chatPrefix client) msg.Message
    let s1 := { s with chatHistory := s.chatHistory ++ [chatMsg] }
    let msg1 := { msg with Message := chatMsg }
    broadcastMessage s1 (marshal msg1) fails
  else if msg.Typ = "restart" then
    if client.color ≠ "" then
      let s1 := { s with gameState := restartFen }
      let s2 := { s1 with moveHistory := [] }
      broadcastMessage s2 msgBytes fails
    else (s, [])
  else (s, [])

/-- One round of the read loop after `ReadMessage` returned `msgBytes` without error
(lines 168-199): a payload that does not decode is skipped. -/
def handleMessage (unmarshal : String → Option Message) (marshal : Message → String)
    (s : State) (client : Client) (msgBytes : String) (fails : Conn → Bool) :
    State × List Write :=
  match unmarshal msgBytes with
  | none => (s, [])
  | some msg => dispatch marshal s client msgBytes msg fails

/-- Number of registered clients whose role is `role`. -/
def roleCount (role : String) (s : State) : Nat :=
  s.clients.countP (fun e => decide (e.2.color = role))

/-- Some registered client holds `role`. -/
def roleHeld (role : String) (s : State) : Bool :=
  s.clients.any (fun e => decide (e.2.color = role))

/-- The registry operations a run of the server performs. -/
inductive Op where
  | register (conn : Conn)
  | unregister (conn : Conn)
  | broadcast (message : String) (fails : Conn → Bool)

/-- Effect of one registry operation on the variables. -/
def Op.apply (s : State) : Op → State
  | .register conn => (ChessGameGo.register s conn).2
  | .unregister conn => removeClient s conn
  | .broadcast message fails => (broadcastMessage s message fails).1

/-- The variables after a sequence of operations, starting from `initState`. -/
def run (ops : List Op) : State := ops.foldl Op.apply initState

/-- The states the server can be in: the variables as initialised, then any number of
accepted connections (a freshly upgraded connection is not a key of `clients`), calls of
`removeClient`, broadcasts and handled messages. -/
inductive Reachable : State → Prop where
  | init : Reachable initState
  | register {s : State} (conn : Conn) :
      Reachable s → conn ∉ keys s.clients → Reachable (ChessGameGo.register s conn).2
  | unregister {s : State} (conn : Conn) : Reachable s → Reachable (removeClient s conn)
  | broadcast {s : State} (message : String) (fails : Conn → Bool) :
      Reachable s → Reachable (broadcastMessage s message fails).1
  | handle {s : State} (unmarshal : String → Option Message) (marshal : Message → String)
      (client : Client) (msgBytes : String) (fails : Conn → Bool) :
      Reachable s → Reachable (handleMessage unmarshal marshal s client msgBytes fails).1

/-- The role `register` is specified to return: the first role nobody holds. -/
def firstFreeRole (s : State) : String :=
  if roleHeld "white" s = false then "white"
  else if roleHeld "black" s = false then "black"
  else ""

/-- Distinct keys; a free slot has no holder; each role has at most one holder. -/
def RegistryInv (s : State) : Prop :=
  (keys s.clients).Nodup ∧
  (s.whiteAssigned = false → roleCount "white" s = 0) ∧ roleCount "white" s ≤ 1 ∧
  (s.blackAssigned = false → roleCount "black" s = 0) ∧ roleCount "black" s ≤ 1

/-- The registry invariant, and an occupied slot has a registered holder. -/
def SlotsExact (s : State) : Prop :=
  RegistryInv s ∧
  (s.whiteAssigned = true → roleHeld "white" s = true) ∧
  (s.blackAssigned = true → roleHeld "black" s = true)

/-- The writes of a broadcast that returned no error. -/
def delivered (fails : Conn → Bool) (ws : List Write) : List Write :=
  ws.filter (fun w => !fails w.conn)

/-- The registry used to exercise the theorems: 1 is "white", 2 is "black", 3 a spectator. -/
def threeClients : State :=
  { initState with
    clients := [(1, ⟨1, "white"⟩), (2, ⟨2, "black"⟩), (3, ⟨3, ""⟩)]
    whiteAssigned := true
    blackAssigned := true }

/-- The move of the scenario: from "e2" to "e4", new position "pos2". -/
def e2e4 : Message := { Typ := "move", From := "e2", To := "e4", Fen := "pos2" }

/-- A move by "black": from "e7" to "e5", new position "pos3". -/
def e7e5 : Message := { Typ := "move", From := "e7", To := "e5", Fen := "pos3" }

/-- The variables after connections 1, 2, 3 were accepted and a broadcast whose write to
connection 2 returned an error removed it. -/
def afterFailedWrite : State :=
  run [.register 1, .register 2, .register 3, .broadcast "x" (fun c => decide (c = 2))]

/-- A chat message with text "hi". -/
def hiMsg : Message := { Typ := "chat", Message := "hi" }

/-- A restart message. -/
def restartMsg : Message := { Typ := "restart" }

/-- An encoder used to exercise the theorems: type and text, separated by a bar. -/
def toyMarshal (m : Message) : String := m.Typ ++ "|" ++ m.Message

/-- The constant `pingPeriod`, in seconds. -/
def pingPeriod : Nat := 60

/-- The constant `pongWait`, in seconds. -/
def pongWait : Nat := 70

/-- The constant `writeWait`, in seconds. -/
def writeWait : Nat := 10

/-- The per-connection part of `wsHandler`: the deadlines set on `conn` (`none` is the zero
time, under which a read or write never times out), whether the ping goroutine still runs
and whether the read loop still runs. -/
structure ConnTimers where
  readDeadline : Option Nat
  writeDeadline : Option Nat
  pinging : Bool
  reading : Bool
deriving DecidableEq, Repr

/-- The deadlines when the read loop is entered: `wsHandler` has called neither
`SetReadDeadline` nor `SetWriteDeadline` on the way there (lines 113-157). -/
def freshTimers : ConnTimers :=
  { readDeadline := none, writeDeadline := none, pinging := true, reading := true }

/-- What can happen to an accepted connection, at a time in seconds: the ticker fires and the
ping write returns an error or not; a pong arrives and the pong handler runs; or nothing has
arrived while `ReadMessage` blocks. -/
inductive ConnEvent where
  | tick (now : Nat) (pingErr : Bool)
  | pong (now : Nat)
  | idle (now : Nat)
deriving DecidableEq, Repr

/-- The blocked `ReadMessage` fails at `now` exactly when a read deadline is set and has
passed. -/
def readTimedOut (t : ConnTimers) (now : Nat) : Bool :=
  match t.readDeadline with
  | none => false
  | some d => decide (d ≤ now)

/-- Lines 143-166 of `wsHandler` for connection `conn`: the ping goroutine, the pong handler
and the error branch of the read loop. -/
def connStep (conn : Conn) (st : State × ConnTimers) : ConnEvent → State × ConnTimers
  | .tick now pingErr =>
    if st.2.pinging then
      let t1 := { st.2 with writeDeadline := some (now + pingPeriod) }
      if pingErr then (removeClient st.1 conn, { t1 with pinging := false })
      else (st.1, t1)
    else st
  | .pong now =>
    if st.2.reading then (st.1, { st.2 with readDeadline := some (now + pongWait) })
    else st
  | .idle now =>
    if st.2.reading && readTimedOut st.2 now then
      (removeClient st.1 conn, { st.2 with reading := false })
    else st

/-- The life of a peer that stays connected but sends neither data nor pongs: at each of the
given times a ping is written without error and the read is still blocked. -/
def silentEvents (times : List Nat) : List ConnEvent :=
  times.flatMap (fun t => [ConnEvent.tick t false, ConnEvent.idle t])

/-! ## The map operations -/

theorem mapLookup_none_iff (conn : Conn) (m : List (Conn × Client)) :
    mapLookup conn m = none ↔ conn ∉ keys m := by
  induction m with
  | nil => simp [mapLookup, keys]
  | cons e rest ih =>
    obtain ⟨k, v⟩ := e
    by_cases h : k = conn
    · simp [mapLookup, keys, h]
    · have h2 : ¬ conn = k := fun h3 => h h3.symm
      simp only [mapLookup, h, if_false, ih]
      simp [keys, h2]

theorem mapLookup_some_mem {conn : Conn} {m : List (Conn × Client)} {v : Client}
    (h : mapLookup conn m = some v) : (conn, v) ∈ m := by
  induction m with
  | nil => simp [mapLookup] at h
  | cons e rest ih =>
    obtain ⟨k, w⟩ := e
    by_cases hk : k = conn
    · simp [mapLookup, hk] at h
      simp [hk, h]
    · simp only [mapLookup, hk, if_false] at h
      exact List.mem_cons_of_mem _ (ih h)

theorem mapDelete_of_not_mem {conn : Conn} {m : List (Conn × Client)}
    (h : conn ∉ keys m) : mapDelete conn m = m := by
  unfold mapDelete
  rw [List.filter_eq_self]
  intro e he
  have : e.1 ∈ keys m := List.mem_map_of_mem _ he
  simp only [ne_eq, decide_eq_true_eq]
  intro h2
  exact h (h2 ▸ this)

theorem not_mem_keys_mapDelete (conn : Conn) (m : List (Conn × Client)) :
    conn ∉ keys (mapDelete conn m) := by
  simp [keys, mapDelete]

theorem mem_keys_mapDelete {conn c : Conn} {m : List (Conn × Client)} :
    c ∈ keys (mapDelete conn m) ↔ c ∈ keys m ∧ c ≠ conn := by
  simp only [keys, mapDelete, List.mem_map, List.mem_filter, ne_eq, decide_eq_true_eq]
  constructor
  · rintro ⟨e, ⟨he, hne⟩, rfl⟩
    exact ⟨⟨e, he, rfl⟩, hne⟩
  · rintro ⟨⟨e, he, rfl⟩, hne⟩
    exact ⟨e, ⟨he, hne⟩, rfl⟩

theorem keys_mapDelete_nodup {conn : Conn} {m : List (Conn × Client)}
    (h : (keys m).Nodup) : (keys (mapDelete conn m)).Nodup := by
  unfold keys mapDelete
  exact List.Nodup.sublist ((List.filter_sublist m).map Prod.fst) h

theorem countP_mapDelete_le (p : Conn × Client → Bool) (conn : Conn)
    (m : List (Conn × Client)) : (mapDelete conn m).countP p ≤ m.countP p := by
  unfold mapDelete
  exact List.Sublist.countP_le _ (List.filter_sublist m)

theorem countP_mapDelete_holder (p : Conn × Client → Bool) {conn : Conn} {v : Client}
    {m : List (Conn × Client)} (hle : m.countP p ≤ 1) (hmem : (conn, v) ∈ m)
    (hp : p (conn, v) = true) : (mapDelete conn m).countP p = 0 := by
  induction m with
  | nil => simp [mapDelete]
  | cons e rest ih =>
    rcases List.mem_cons.mp hmem with heq | hrest
    · subst heq
      have h0 : rest.countP p = 0 := by
        rw [List.countP_cons_of_pos _ _ hp] at hle
        omega
      have h1 := countP_mapDelete_le p conn rest
      have h2 : mapDelete conn ((conn, v) :: rest) = mapDelete conn rest := by
        simp [mapDelete]
      rw [h2]
      omega
    · by_cases hpe : p e = true
      · rw [List.countP_cons_of_pos _ _ hpe] at hle
        have h0 : rest.countP p = 0 := by omega
        rw [List.countP_eq_zero] at h0
        exact absurd hp (h0 _ hrest)
      · rw [List.countP_cons_of_neg _ _ hpe] at hle
        have h1 := ih hle hrest
        unfold mapDelete at h1 ⊢
        by_cases hk : e.1 = conn
        · simpa [List.filter_cons, hk] using h1
        · simp only [List.filter_cons, ne_eq, hk, not_false_eq_true, decide_True, if_true]
          rw [List.countP_cons_of_neg _ _ hpe]
          exact h1

/-! ## Frame lemmas for `removeClient` and the broadcast loop -/

theorem removeClient_clients (s : State) (conn : Conn) :
    (removeClient s conn).clients = mapDelete conn s.clients := by
  unfold removeClient
  cases h : mapLookup conn s.clients with
  | none => simp only; exact (mapDelete_of_not_mem ((mapLookup_none_iff _ _).mp h)).symm
  | some v => simp only; split_ifs <;> rfl

theorem removeClient_frame (s : State) (conn : Conn) :
    (removeClient s conn).gameState = s.gameState ∧
    (removeClient s conn).moveHistory = s.moveHistory ∧
    (removeClient s conn).chatHistory = s.chatHistory := by
  unfold removeClient
  cases h : mapLookup conn s.clients with
  | none => simp
  | some v => simp only; split_ifs <;> simp

theorem removeClient_of_not_mem {s : State} {conn : Conn} (h : conn ∉ keys s.clients) :
    removeClient s conn = s := by
  unfold removeClient
  rw [(mapLookup_none_iff _ _).mpr h]

theorem broadcastLoop_preserves (P : State → Prop)
    (hP : ∀ s conn, P s → P (removeClient s conn)) (message : String)
    (fails : Conn → Bool) (ks : List Conn) (s : State) (h : P s) :
    P (broadcastLoop message fails ks s).1 := by
  induction ks generalizing s with
  | nil => simpa [broadcastLoop] using h
  | cons c rest ih =>
    unfold broadcastLoop
    cases hl : mapLookup c s.clients with
    | none => simpa using ih s h
    | some v =>
      simp only
      by_cases hf : fails c = true
      · simpa [hf] using ih _ (hP s c h)
      · simpa [hf] using ih s h

/-! ## The registry invariant -/

theorem roleCount_removeClient_le (role : String) (s : State) (conn : Conn) :
    roleCount role (removeClient s conn) ≤ roleCount role s := by
  unfold roleCount
  rw [removeClient_clients]
  exact countP_mapDelete_le _ _ _

theorem roleCount_removeClient_holder {role : String} {s : State} {conn : Conn} {v : Client}
    (hl : mapLookup conn s.clients = some v) (hc : v.color = role)
    (hle : roleCount role s ≤ 1) : roleCount role (removeClient s conn) = 0 := by
  unfold roleCount at hle ⊢
  rw [removeClient_clients]
  exact countP_mapDelete_holder _ hle (mapLookup_some_mem hl) (by simp [hc])

theorem removeClient_whiteAssigned {s : State} {conn : Conn}
    (h : (removeClient s conn).whiteAssigned = false) :
    s.whiteAssigned = false ∨ ∃ v, mapLookup conn s.clients = some v ∧ v.color = "white" := by
  unfold removeClient at h
  cases hl : mapLookup conn s.clients with
  | none => rw [hl] at h; exact Or.inl h
  | some v =>
    rw [hl] at h
    simp only at h
    by_cases hw : v.color = "white"
    · exact Or.inr ⟨v, rfl, hw⟩
    · left
      split_ifs at h <;> simpa using h

theorem removeClient_blackAssigned {s : State} {conn : Conn}
    (h : (removeClient s conn).blackAssigned = false) :
    s.blackAssigned = false ∨ ∃ v, mapLookup conn s.clients = some v ∧ v.color = "black" := by
  unfold removeClient at h
  cases hl : mapLookup conn s.clients with
  | none => rw [hl] at h; exact Or.inl h
  | some v =>
    rw [hl] at h
    simp only at h
    by_cases hb : v.color = "black"
    · exact Or.inr ⟨v, rfl, hb⟩
    · left
      split_ifs at h <;> simpa using h

theorem registryInv_removeClient (s : State) (conn : Conn) (h : RegistryInv s) :
    RegistryInv (removeClient s conn) := by
  obtain ⟨hn, hw0, hw1, hb0, hb1⟩ := h
  refine ⟨?_, ?_, ?_, ?_, ?_⟩
  · rw [removeClient_clients]; exact keys_mapDelete_nodup hn
  · intro hf
    rcases removeClient_whiteAssigned hf with h0 | ⟨v, hl, hc⟩
    · have := roleCount_removeClient_le "white" s conn
      have := hw0 h0
      omega
    · exact roleCount_removeClient_holder hl hc hw1
  · exact le_trans (roleCount_removeClient_le _ _ _) hw1
  · intro hf
    rcases removeClient_blackAssigned hf with h0 | ⟨v, hl, hc⟩
    · have := roleCount_removeClient_le "black" s conn
      have := hb0 h0
      omega
    · exact roleCount_removeClient_holder hl hc hb1
  · exact le_trans (roleCount_removeClient_le _ _ _) hb1

theorem keys_mapInsert_nodup {conn : Conn} {v : Client} {m : List (Conn × Client)}
    (h : (keys m).Nodup) : (keys (mapInsert conn v m)).Nodup := by
  have h1 : keys (mapInsert conn v m) = conn :: keys (mapDelete conn m) := rfl
  rw [h1]
  exact List.nodup_cons.mpr ⟨not_mem_keys_mapDelete conn m, keys_mapDelete_nodup h⟩

theorem registryInv_register (s : State) (conn : Conn) (h : RegistryInv s) :
    RegistryInv (register s conn).2 := by
  obtain ⟨hn, hw0, hw1, hb0, hb1⟩ := h
  have hdw := countP_mapDelete_le (fun e => decide (e.2.color = "white")) conn s.clients
  have hdb := countP_mapDelete_le (fun e => decide (e.2.color = "black")) conn s.clients
  unfold roleCount at hw0 hw1 hb0 hb1
  unfold register assignColor
  cases hW : s.whiteAssigned with
  | false =>
    have := hw0 hW
    refine ⟨keys_mapInsert_nodup hn, ?_, ?_, ?_, ?_⟩
    · simp
    · simp only [roleCount, mapInsert, Bool.not_false, if_true]
      rw [List.countP_cons_of_pos _ _ (by simp)]
      omega
    · intro hB
      have := hb0 (by simpa using hB)
      simp only [roleCount, mapInsert, Bool.not_false, if_true]
      rw [List.countP_cons_of_neg _ _ (by simp)]
      omega
    · simp only [roleCount, mapInsert, Bool.not_false, if_true]
      rw [List.countP_cons_of_neg _ _ (by simp)]
      omega
  | true =>
    cases hB : s.blackAssigned with
    | false =>
      have := hb0 hB
      refine ⟨keys_mapInsert_nodup hn, ?_, ?_, ?_, ?_⟩
      · simp [hW]
      · simp only [roleCount, mapInsert, Bool.not_true, Bool.not_false, if_true, if_false,
          Bool.false_eq_true]
        rw [List.countP_cons_of_neg _ _ (by simp)]
        omega
      · simp
      · simp only [roleCount, mapInsert, Bool.not_true, Bool.not_false, if_true, if_false,
          Bool.false_eq_true]
        rw [List.countP_cons_of_pos _ _ (by simp)]
        omega
    | true =>
      refine ⟨keys_mapInsert_nodup hn, ?_, ?_, ?_, ?_⟩
      · simp [hW]
      · simp only [roleCount, mapInsert, Bool.not_true, if_false, Bool.false_eq_true]
        rw [List.countP_cons_of_neg _ _ (by simp)]
        omega
      · simp [hB]
      · simp only [roleCount, mapInsert, Bool.not_true, if_false, Bool.false_eq_true]
        rw [List.countP_cons_of_neg _ _ (by simp)]
        omega

theorem registryInv_init : RegistryInv initState := by
  refine ⟨?_, ?_, ?_, ?_, ?_⟩ <;> simp [initState, keys, roleCount]

theorem registryInv_apply (s : State) (op : Op) (h : RegistryInv s) :
    RegistryInv (op.apply s) := by
  cases op with
  | register conn => exact registryInv_register s conn h
  | unregister conn => exact registryInv_removeClient s conn h
  | broadcast message fails =>
    exact broadcastLoop_preserves RegistryInv registryInv_removeClient _ _ _ s h

theorem registryInv_foldl (ops : List Op) (s : State) (h : RegistryInv s) :
    RegistryInv (ops.foldl Op.apply s) := by
  induction ops generalizing s with
  | nil => exact h
  | cons op rest ih => exact ih _ (registryInv_apply s op h)

/-- C1: after every finite sequence of registrations, removals (repeated ones included) and
broadcasts with failing writes, starting from the empty registry with both slots free, the
registered connections are pairwise distinct, at most one of them has role "white" and at
most one has role "black". -/
theorem at_most_one_holder_per_role (ops : List Op) :
    (keys (run ops).clients).Nodup ∧
    roleCount "white" (run ops) ≤ 1 ∧ roleCount "black" (run ops) ≤ 1 := by
  obtain ⟨hn, _, hw1, _, hb1⟩ := registryInv_foldl ops initState registryInv_init
  exact ⟨hn, hw1, hb1⟩

/-! ## The slot flags agree with the registry -/

theorem roleHeld_iff_roleCount_pos (role : String) (s : State) :
    roleHeld role s = true ↔ 0 < roleCount role s := by
  unfold roleHeld roleCount
  rw [List.any_eq_true, List.countP_pos_iff]

theorem roleHeld_removeClient_other {role : String} {s : State} {conn : Conn}
    (hn : (keys s.clients).Nodup) (hheld : roleHeld role s = true)
    (hother : ∀ v, mapLookup conn s.clients = some v → v.color ≠ role) :
    roleHeld role (removeClient s conn) = true := by
  unfold roleHeld at hheld ⊢
  rw [removeClient_clients]
  rw [List.any_eq_true] at hheld ⊢
  obtain ⟨e, he, hc⟩ := hheld
  refine ⟨e, ?_, hc⟩
  unfold mapDelete
  rw [List.mem_filter]
  refine ⟨he, ?_⟩
  simp only [ne_eq, decide_eq_true_eq]
  intro hk
  cases hl : mapLookup conn s.clients with
  | none =>
    have := (mapLookup_none_iff _ _).mp hl
    exact this (hk ▸ List.mem_map_of_mem Prod.fst he)
  | some v =>
    have hmem := mapLookup_some_mem hl
    have heq : e = (conn, v) := List.inj_on_of_nodup_map hn he hmem hk
    have := hother v hl
    rw [heq] at hc
    simp at hc
    exact this hc

theorem removeClient_whiteAssigned_true {s : State} {conn : Conn}
    (h : (removeClient s conn).whiteAssigned = true) :
    s.whiteAssigned = true ∧ ∀ v, mapLookup conn s.clients = some v → v.color ≠ "white" := by
  unfold removeClient at h
  cases hl : mapLookup conn s.clients with
  | none => rw [hl] at h; exact ⟨h, by simp⟩
  | some v =>
    rw [hl] at h
    simp only at h
    by_cases hw : v.color = "white"
    · simp [hw] at h
    · refine ⟨?_, by simpa using hw⟩
      split_ifs at h <;> simpa using h

theorem removeClient_blackAssigned_true {s : State} {conn : Conn}
    (h : (removeClient s conn).blackAssigned = true) :
    s.blackAssigned = true ∧ ∀ v, mapLookup conn s.clients = some v → v.color ≠ "black" := by
  unfold removeClient at h
  cases hl : mapLookup conn s.clients with
  | none => rw [hl] at h; exact ⟨h, by simp⟩
  | some v =>
    rw [hl] at h
    simp only at h
    by_cases hb : v.color = "black"
    · by_cases hw : v.color = "white"
      · rw [hw] at hb; exact absurd hb (by decide)
      · simp [hw, hb] at h
    · refine ⟨?_, by simpa using hb⟩
      split_ifs at h <;> simpa using h

theorem slotsExact_removeClient (s : State) (conn : Conn) (h : SlotsExact s) :
    SlotsExact (removeClient s conn) := by
  obtain ⟨hinv, hw, hb⟩ := h
  refine ⟨registryInv_removeClient s conn hinv, ?_, ?_⟩
  · intro hf
    obtain ⟨h1, h2⟩ := removeClient_whiteAssigned_true hf
    exact roleHeld_removeClient_other hinv.1 (hw h1) h2
  · intro hf
    obtain ⟨h1, h2⟩ := removeClient_blackAssigned_true hf
    exact roleHeld_removeClient_other hinv.1 (hb h1) h2

theorem slotsExact_register (s : State) (conn : Conn) (h : SlotsExact s)
    (hnew : conn ∉ keys s.clients) : SlotsExact (register s conn).2 := by
  obtain ⟨hinv, hw, hb⟩ := h
  refine ⟨registryInv_register s conn hinv, ?_, ?_⟩
  · intro _
    unfold register assignColor roleHeld
    cases hW : s.whiteAssigned with
    | false => simp [mapInsert]
    | true =>
      have := hw hW
      unfold roleHeld at this
      cases hB : s.blackAssigned <;>
        simp [mapInsert, mapDelete_of_not_mem hnew, this]
  · intro hf
    unfold register assignColor at hf
    unfold register assignColor roleHeld
    cases hW : s.whiteAssigned with
    | false =>
      rw [hW] at hf
      have := hb (by simpa using hf)
      unfold roleHeld at this
      simp [mapInsert, mapDelete_of_not_mem hnew, this]
    | true =>
      cases hB : s.blackAssigned with
      | false => simp [mapInsert]
      | true =>
        have := hb hB
        unfold roleHeld at this
        simp [mapInsert, mapDelete_of_not_mem hnew, this]

theorem slotsExact_init : SlotsExact initState :=
  ⟨registryInv_init, by simp [initState], by simp [initState]⟩

theorem slotsExact_broadcast (s : State) (message : String) (fails : Conn → Bool)
    (h : SlotsExact s) : SlotsExact (broadcastMessage s message fails).1 :=
  broadcastLoop_preserves SlotsExact slotsExact_removeClient _ _ _ s h

theorem slotsExact_handleMessage (unmarshal : String → Option Message)
    (marshal : Message → String) (s : State) (client : Client) (msgBytes : String)
    (fails : Conn → Bool) (h : SlotsExact s) :
    SlotsExact (handleMessage unmarshal marshal s client msgBytes fails).1 := by
  unfold handleMessage
  cases unmarshal msgBytes with
  | none => exact h
  | some msg =>
    simp only
    unfold dispatch
    split_ifs
    · exact slotsExact_broadcast _ _ _ h
    · exact h
    · exact slotsExact_broadcast _ _ _ h
    · exact slotsExact_broadcast _ _ _ h
    · exact h
    · exact h

theorem slotsExact_of_reachable {s : State} (h : Reachable s) : SlotsExact s := by
  induction h with
  | init => exact slotsExact_init
  | register conn _ hnew ih => exact slotsExact_register _ conn ih hnew
  | unregister conn _ ih => exact slotsExact_removeClient _ conn ih
  | broadcast message fails _ ih => exact slotsExact_broadcast _ message fails ih
  | handle unmarshal marshal client msgBytes fails _ ih =>
    exact slotsExact_handleMessage unmarshal marshal _ client msgBytes fails ih

theorem whiteAssigned_eq_roleHeld {s : State} (h : SlotsExact s) :
    s.whiteAssigned = roleHeld "white" s := by
  obtain ⟨⟨_, hw0, _, _, _⟩, hw, _⟩ := h
  cases hW : s.whiteAssigned with
  | true => exact (hw hW).symm
  | false =>
    have h0 := hw0 hW
    cases hr : roleHeld "white" s with
    | false => rfl
    | true =>
      have := (roleHeld_iff_roleCount_pos _ _).mp hr
      omega

theorem blackAssigned_eq_roleHeld {s : State} (h : SlotsExact s) :
    s.blackAssigned = roleHeld "black" s := by
  obtain ⟨⟨_, _, _, hb0, _⟩, _, hb⟩ := h
  cases hB : s.blackAssigned with
  | true => exact (hb hB).symm
  | false =>
    have h0 := hb0 hB
    cases hr : roleHeld "black" s with
    | false => rfl
    | true =>
      have := (roleHeld_iff_roleCount_pos _ _).mp hr
      omega

theorem register_fst_of_slotsExact {s : State} (h : SlotsExact s) (conn : Conn) :
    (register s conn).1 = firstFreeRole s := by
  unfold register assignColor firstFreeRole
  rw [whiteAssigned_eq_roleHeld h, blackAssigned_eq_roleHeld h]
  cases roleHeld "white" s <;> cases roleHeld "black" s <;> simp

/-- C2: in every reachable state, registering a connection returns "white" if no registered
client holds "white", otherwise "black" if none holds "black", otherwise "" and stores the
connection with that role; joins A, B, C from the empty registry get "white", "black", "";
and once the holder of a role is removed while the other slot is held, the next connection
to register receives the freed role. -/
theorem register_returns_first_free_role (s : State) (hs : Reachable s) (conn : Conn) :
    (register s conn).1 = firstFreeRole s ∧
    mapLookup conn (register s conn).2.clients =
      some { conn := conn, color := firstFreeRole s } ∧
    (∀ a b c : Conn,
      (register initState a).1 = "white" ∧
      (register (register initState a).2 b).1 = "black" ∧
      (register (register (register initState a).2 b).2 c).1 = "") ∧
    (∀ (holder : Conn) (v : Client), mapLookup holder s.clients = some v →
      (v.color = "white" ∧ roleHeld "black" s = true ∨
        v.color = "black" ∧ roleHeld "white" s = true) →
      ∀ next : Conn, (register (removeClient s holder) next).1 = v.color) := by
  have hex := slotsExact_of_reachable hs
  have h1 := register_fst_of_slotsExact hex conn
  refine ⟨h1, ?_, ?_, ?_⟩
  · rw [← h1]
    simp [register, mapInsert, mapLookup]
  · intro a b c
    exact ⟨rfl, rfl, rfl⟩
  · intro holder v hl hcase next
    have hex2 := slotsExact_removeClient s holder hex
    rw [register_fst_of_slotsExact hex2 next]
    have hcount : ∀ role, v.color = role → roleCount role s ≤ 1 →
        roleHeld role (removeClient s holder) = false := by
      intro role hc hle
      have h0 := roleCount_removeClient_holder hl hc hle
      cases hr : roleHeld role (removeClient s holder) with
      | false => rfl
      | true =>
        have := (roleHeld_iff_roleCount_pos _ _).mp hr
        omega
    obtain ⟨hn, _, hw1, _, hb1⟩ := hex.1
    rcases hcase with ⟨hc, _⟩ | ⟨hc, hheld⟩
    · unfold firstFreeRole
      rw [hcount "white" hc hw1, hc]
      simp
    · have hwhite : roleHeld "white" (removeClient s holder) = true := by
        apply roleHeld_removeClient_other hn hheld
        intro v2 hl2
        rw [hl] at hl2
        cases hl2
        rw [hc]
        decide
      unfold firstFreeRole
      rw [hwhite, hcount "black" hc hb1, hc]
      simp

/-- C2, at the state where connection 1 holds "white": the next connection gets "black". -/
theorem register_returns_first_free_role_witness :
    Reachable (register initState 1).2 ∧ (register (register initState 1).2 2).1 = "black" :=
  ⟨Reachable.register 1 Reachable.init (by decide),
    (register_returns_first_free_role (register initState 1).2
      (Reachable.register 1 Reachable.init (by decide)) 2).1.trans (by decide)⟩

/-! ## The broadcast loop -/

theorem mapLookup_mapDelete_ne {conn c : Conn} (m : List (Conn × Client)) (h : c ≠ conn) :
    mapLookup c (mapDelete conn m) = mapLookup c m := by
  induction m with
  | nil => rfl
  | cons e rest ih =>
    obtain ⟨k, v⟩ := e
    unfold mapDelete at ih ⊢
    by_cases hk : k = conn
    · have hkc : ¬ k = c := fun h2 => h (h2 ▸ hk)
      simp only [List.filter_cons, ne_eq, hk, not_true_eq_false, decide_False,
        Bool.false_eq_true, if_false]
      rw [ih]
      simp [mapLookup, hk, Ne.symm h]
    · simp only [List.filter_cons, ne_eq, hk, not_false_eq_true, decide_True, if_true]
      simp only [mapLookup]
      rw [ih]

theorem broadcastLoop_frame (message : String) (fails : Conn → Bool) (ks : List Conn)
    (s : State) :
    (broadcastLoop message fails ks s).1.gameState = s.gameState ∧
    (broadcastLoop message fails ks s).1.moveHistory = s.moveHistory ∧
    (broadcastLoop message fails ks s).1.chatHistory = s.chatHistory := by
  apply broadcastLoop_preserves
    (fun t => t.gameState = s.gameState ∧ t.moveHistory = s.moveHistory ∧
      t.chatHistory = s.chatHistory)
  · intro t c ht
    obtain ⟨h1, h2, h3⟩ := removeClient_frame t c
    exact ⟨h1.trans ht.1, h2.trans ht.2.1, h3.trans ht.2.2⟩
  · exact ⟨rfl, rfl, rfl⟩

theorem broadcastLoop_no_failure (message : String) (fails : Conn → Bool) (ks : List Conn)
    (s : State) (h : ∀ c ∈ ks, fails c = false) :
    (broadcastLoop message fails ks s).1 = s := by
  induction ks with
  | nil => rfl
  | cons c rest ih =>
    have hc : fails c = false := h c (List.mem_cons_self _ _)
    have hrest : ∀ c ∈ rest, fails c = false := fun x hx => h x (List.mem_cons_of_mem _ hx)
    unfold broadcastLoop
    cases mapLookup c s.clients with
    | none => simpa using ih hrest
    | some v => simpa [hc] using ih hrest

theorem broadcastLoop_flags_mono (message : String) (fails : Conn → Bool) (ks : List Conn)
    (s : State) :
    (s.whiteAssigned = false → (broadcastLoop message fails ks s).1.whiteAssigned = false) ∧
    (s.blackAssigned = false → (broadcastLoop message fails ks s).1.blackAssigned = false) := by
  apply broadcastLoop_preserves
    (fun t => (s.whiteAssigned = false → t.whiteAssigned = false) ∧
      (s.blackAssigned = false → t.blackAssigned = false))
  · intro t c ht
    constructor
    · intro h0
      cases hr : (removeClient t c).whiteAssigned with
      | false => rfl
      | true =>
        have := (removeClient_whiteAssigned_true hr).1
        rw [ht.1 h0] at this
        exact absurd this (by decide)
    · intro h0
      cases hr : (removeClient t c).blackAssigned with
      | false => rfl
      | true =>
        have := (removeClient_blackAssigned_true hr).1
        rw [ht.2 h0] at this
        exact absurd this (by decide)
  · exact ⟨id, id⟩

theorem removeClient_frees_slot {s : State} {conn : Conn} {v : Client}
    (hl : mapLookup conn s.clients = some v) :
    (v.color = "white" → (removeClient s conn).whiteAssigned = false) ∧
    (v.color = "black" → (removeClient s conn).blackAssigned = false) := by
  unfold removeClient
  rw [hl]
  constructor
  · intro hc
    simp [hc]
  · intro hc
    simp [hc]

theorem broadcastLoop_spec (message : String) (fails : Conn → Bool) (ks : List Conn)
    (s : State) (hks : ks.Nodup) (hsub : ∀ k ∈ ks, k ∈ keys s.clients) :
    (broadcastLoop message fails ks s).2 = ks.map (fun c => { conn := c, payload := message }) ∧
    (broadcastLoop message fails ks s).1.clients =
      s.clients.filter (fun e => !(decide (e.1 ∈ ks) && fails e.1)) ∧
    (∀ c ∈ ks, fails c = true → ∀ v, mapLookup c s.clients = some v →
      (v.color = "white" → (broadcastLoop message fails ks s).1.whiteAssigned = false) ∧
      (v.color = "black" → (broadcastLoop message fails ks s).1.blackAssigned = false)) := by
  induction ks generalizing s with
  | nil => simp [broadcastLoop]
  | cons k rest ih =>
    obtain ⟨hk, hrest⟩ := List.nodup_cons.mp hks
    have hkmem : k ∈ keys s.clients := hsub k (List.mem_cons_self _ _)
    obtain ⟨vk, hvk⟩ : ∃ v, mapLookup k s.clients = some v := by
      cases hl : mapLookup k s.clients with
      | none => exact absurd hkmem ((mapLookup_none_iff _ _).mp hl)
      | some v => exact ⟨v, rfl⟩
    have hstep : broadcastLoop message fails (k :: rest) s =
        ((broadcastLoop message fails rest (if fails k then removeClient s k else s)).1,
          { conn := k, payload := message } ::
            (broadcastLoop message fails rest (if fails k then removeClient s k else s)).2) := by
      rw [broadcastLoop, hvk]
    rw [hstep]
    by_cases hf : fails k = true
    · simp only [hf, if_true]
      have hsub2 : ∀ c ∈ rest, c ∈ keys (removeClient s k).clients := by
        intro c hc
        rw [removeClient_clients]
        refine mem_keys_mapDelete.mpr ⟨hsub c (List.mem_cons_of_mem _ hc), ?_⟩
        intro hck
        exact hk (hck ▸ hc)
      obtain ⟨h1, h2, h3⟩ := ih (removeClient s k) hrest hsub2
      refine ⟨by rw [h1]; rfl, ?_, ?_⟩
      · rw [h2, removeClient_clients]
        unfold mapDelete
        rw [List.filter_filter]
        apply List.filter_congr
        intro e _
        by_cases hek : e.1 = k
        · simp [hek, hf]
        · simp [hek]
      · intro c hc _ v hl
        rcases List.mem_cons.mp hc with hck | hcr
        · subst hck
          have hfree := removeClient_frees_slot hl
          have hmono := broadcastLoop_flags_mono message fails rest (removeClient s c)
          exact ⟨fun hw => hmono.1 (hfree.1 hw), fun hb => hmono.2 (hfree.2 hb)⟩
        · have hne : c ≠ k := fun hck => hk (hck ▸ hcr)
          apply h3 c hcr (by assumption) v
          rw [removeClient_clients, mapLookup_mapDelete_ne _ hne]
          exact hl
    · have hf2 : fails k = false := by simpa using hf
      simp only [hf2, Bool.false_eq_true, if_false]
      have hsub2 : ∀ c ∈ rest, c ∈ keys s.clients :=
        fun c hc => hsub c (List.mem_cons_of_mem _ hc)
      obtain ⟨h1, h2, h3⟩ := ih s hrest hsub2
      refine ⟨by rw [h1]; rfl, ?_, ?_⟩
      · rw [h2]
        apply List.filter_congr
        intro e _
        by_cases hek : e.1 = k
        · simp [hek, hf2]
        · simp [hek]
      · intro c hc hfc v hl
        rcases List.mem_cons.mp hc with hck | hcr
        · subst hck
          rw [hfc] at hf2
          exact absurd hf2 (by decide)
        · exact h3 c hcr hfc v hl

theorem broadcastMessage_spec (s : State) (message : String) (fails : Conn → Bool)
    (hn : (keys s.clients).Nodup) :
    (broadcastMessage s message fails).2 =
      (keys s.clients).map (fun c => { conn := c, payload := message }) ∧
    (broadcastMessage s message fails).1.clients = s.clients.filter (fun e => !fails e.1) ∧
    (∀ e ∈ s.clients, fails e.1 = true →
      (e.2.color = "white" → (broadcastMessage s message fails).1.whiteAssigned = false) ∧
      (e.2.color = "black" → (broadcastMessage s message fails).1.blackAssigned = false)) := by
  obtain ⟨h1, h2, h3⟩ :=
    broadcastLoop_spec message fails (keys s.clients) s hn (fun _ h => h)
  refine ⟨h1, ?_, ?_⟩
  · unfold broadcastMessage
    rw [h2]
    apply List.filter_congr
    intro e he
    have : e.1 ∈ keys s.clients := List.mem_map_of_mem Prod.fst he
    simp [this]
  · intro e he hf
    have hmem : e.1 ∈ keys s.clients := List.mem_map_of_mem Prod.fst he
    cases hl : mapLookup e.1 s.clients with
    | none => exact absurd hmem ((mapLookup_none_iff _ _).mp hl)
    | some v =>
      have heq : (e.1, v) = e :=
        List.inj_on_of_nodup_map hn (mapLookup_some_mem hl) he rfl
      have hv : v = e.2 := by rw [← heq]
      rw [← hv]
      exact h3 e.1 hmem hf v hl

theorem mem_delivered_of_ok {fails : Conn → Bool} {ks : List Conn} {c : Conn}
    (message : String) (hc : c ∈ ks) (hok : fails c = false) :
    ({ conn := c, payload := message } : Write) ∈
      delivered fails (ks.map (fun c => { conn := c, payload := message })) := by
  unfold delivered
  rw [List.mem_filter]
  exact ⟨List.mem_map_of_mem _ hc, by simp [hok]⟩

theorem broadcastMessage_effects (s : State) (message : String)
    (fails : Conn → Bool) (hn : (keys s.clients).Nodup) :
    (broadcastMessage s message fails).2 =
      (keys s.clients).map (fun c => { conn := c, payload := message }) ∧
    (broadcastMessage s message fails).1.clients = s.clients.filter (fun e => !fails e.1) ∧
    (∀ e ∈ s.clients, fails e.1 = true →
      (e.2.color = "white" → (broadcastMessage s message fails).1.whiteAssigned = false) ∧
      (e.2.color = "black" → (broadcastMessage s message fails).1.blackAssigned = false)) ∧
    (∀ c ∈ keys s.clients, fails c = false →
      ({ conn := c, payload := message } : Write) ∈
        delivered fails (broadcastMessage s message fails).2) ∧
    (broadcastMessage s message fails).1.gameState = s.gameState ∧
    (broadcastMessage s message fails).1.moveHistory = s.moveHistory ∧
    (broadcastMessage s message fails).1.chatHistory = s.chatHistory := by
  obtain ⟨h1, h2, h3⟩ := broadcastMessage_spec s message fails hn
  obtain ⟨f1, f2, f3⟩ := broadcastLoop_frame message fails (keys s.clients) s
  refine ⟨h1, h2, h3, ?_, f1, f2, f3⟩
  intro c hc hok
  rw [h1]
  exact mem_delivered_of_ok message hc hok

/-- C4: for every payload, every registry (a map: distinct keys) and every choice of failing
writes, `broadcastMessage` writes the payload once to every registered connection, in
enumeration order, so every connection whose write succeeds receives it whatever failed
before it; afterwards the registry holds exactly the entries whose write succeeded, the
slot of every failed role-holder is free, and position, move log and chat log are
unchanged. -/
theorem broadcast_isolates_failures (s : State) (message : String) (fails : Conn → Bool)
    (hn : (keys s.clients).Nodup) :
    (broadcastMessage s message fails).2 =
      (keys s.clients).map (fun c => { conn := c, payload := message }) ∧
    (∀ c ∈ keys s.clients, fails c = false →
      ({ conn := c, payload := message } : Write) ∈
        delivered fails (broadcastMessage s message fails).2) ∧
    (broadcastMessage s message fails).1.clients = s.clients.filter (fun e => !fails e.1) ∧
    (∀ e ∈ s.clients, fails e.1 = true →
      (e.2.color = "white" → (broadcastMessage s message fails).1.whiteAssigned = false) ∧
      (e.2.color = "black" → (broadcastMessage s message fails).1.blackAssigned = false)) ∧
    (broadcastMessage s message fails).1.gameState = s.gameState ∧
    (broadcastMessage s message fails).1.moveHistory = s.moveHistory ∧
    (broadcastMessage s message fails).1.chatHistory = s.chatHistory := by
  obtain ⟨h1, h2, h3⟩ := broadcastMessage_spec s message fails hn
  obtain ⟨f1, f2, f3⟩ := broadcastLoop_frame message fails (keys s.clients) s
  refine ⟨h1, ?_, h2, h3, f1, f2, f3⟩
  intro c hc hok
  rw [h1]
  exact mem_delivered_of_ok message hc hok

/-- C4 at `threeClients` when the write to connection 1 fails: connections 2 and 3 still
receive the payload and only they stay registered. -/
theorem broadcast_isolates_failures_witness :
    (keys threeClients.clients).Nodup ∧
    delivered (fun c => decide (c = 1)) (broadcastMessage threeClients "m"
      (fun c => decide (c = 1))).2 = [⟨2, "m"⟩, ⟨3, "m"⟩] ∧
    (broadcastMessage threeClients "m" (fun c => decide (c = 1))).1.clients =
      [(2, ⟨2, "black"⟩), (3, ⟨3, ""⟩)] := by
  have h := broadcast_isolates_failures threeClients "m" (fun c => decide (c = 1))
    (by decide)
  refine ⟨by decide, ?_, ?_⟩
  · rw [h.1]; decide
  · rw [h.2.2.1]; decide

/-! ## The message switch -/

theorem handleMessage_of_decoded {unmarshal : String → Option Message}
    (marshal : Message → String) (s : State) (client : Client) {msgBytes : String}
    {msg : Message} (fails : Conn → Bool) (hdec : unmarshal msgBytes = some msg) :
    handleMessage unmarshal marshal s client msgBytes fails =
      dispatch marshal s client msgBytes msg fails := by
  unfold handleMessage
  rw [hdec]

theorem dispatch_move (marshal : Message → String) (s : State) (client : Client)
    (msgBytes : String) {msg : Message} (fails : Conn → Bool) (htype : msg.Typ = "move") :
    dispatch marshal s client msgBytes msg fails =
      if client.color ≠ "" then
        broadcastMessage
          { s with
            gameState := msg.Fen
            moveHistory := s.moveHistory ++ [moveRecord client.color msg.From msg.To] }
          msgBytes fails
      else (s, []) := by
  unfold dispatch
  rw [if_pos htype]

theorem dispatch_chat (marshal : Message → String) (s : State) (client : Client)
    (msgBytes : String) {msg : Message} (fails : Conn → Bool) (htype : msg.Typ = "chat") :
    dispatch marshal s client msgBytes msg fails =
      broadcastMessage
        { s with chatHistory := s.chatHistory ++ [chatRecord (chatPrefix client) msg.Message] }
        (marshal { msg with Message := chatRecord (chatPrefix client) msg.Message }) fails := by
  unfold dispatch
  have h1 : ¬ msg.Typ = "move" := by rw [htype]; decide
  rw [if_neg h1, if_pos htype]

theorem dispatch_restart (marshal : Message → String) (s : State) (client : Client)
    (msgBytes : String) {msg : Message} (fails : Conn → Bool)
    (htype : msg.Typ = "restart") :
    dispatch marshal s client msgBytes msg fails =
      if client.color ≠ "" then
        broadcastMessage { s with gameState := restartFen, moveHistory := [] } msgBytes fails
      else (s, []) := by
  unfold dispatch
  have h1 : ¬ msg.Typ = "move" := by rw [htype]; decide
  have h2 : ¬ msg.Typ = "chat" := by rw [htype]; decide
  rw [if_neg h1, if_neg h2, if_pos htype]

theorem color_ne_empty_of_player {client : Client}
    (h : client.color = "white" ∨ client.color = "black") : client.color ≠ "" := by
  rcases h with h | h <;> rw [h] <;> decide

/-- C3, as stated, fails: connections 1, 2, 3 join, a broadcast whose write to connection 2
fails removes 2 from the registry while its read loop goes on with role "black"; its next
"move" is applied (position and move log change) and relayed to connections 3 and 1, but no
write goes to the sender, connection 2. -/
theorem move_not_relayed_to_removed_sender :
    (acceptConn toyMarshal (run [.register 1]) 2).1 = ⟨2, "black"⟩ ∧
    afterFailedWrite.clients = [(3, ⟨3, ""⟩), (1, ⟨1, "white"⟩)] ∧
    (handleMessage (fun _ => some e7e5) toyMarshal afterFailedWrite ⟨2, "black"⟩ "raw"
      (fun _ => false)).1.gameState = "pos3" ∧
    (handleMessage (fun _ => some e7e5) toyMarshal afterFailedWrite ⟨2, "black"⟩ "raw"
      (fun _ => false)).1.moveHistory = ["<p>black: e7-e5</p>"] ∧
    (handleMessage (fun _ => some e7e5) toyMarshal afterFailedWrite ⟨2, "black"⟩ "raw"
      (fun _ => false)).2 = [⟨3, "raw"⟩, ⟨1, "raw"⟩] ∧
    (⟨2, "raw"⟩ : Write) ∉
      (handleMessage (fun _ => some e7e5) toyMarshal afterFailedWrite ⟨2, "black"⟩ "raw"
        (fun _ => false)).2 := by
  decide

/-- C3, amended: a "move" message from a sender whose role is "white" or "black" sets the
position to the message's fen field, appends exactly one record to the move log, leaves the
chat log alone and writes the inbound payload unchanged, once, to every registered
connection, each successful write delivering it; the sender is written to exactly when it is
still registered; from a spectator nothing changes and nothing is written. -/
theorem move_updates_position_and_relays (unmarshal : String → Option Message)
    (marshal : Message → String) (s : State) (client : Client) (msgBytes : String)
    (msg : Message) (fails : Conn → Bool) (hdec : unmarshal msgBytes = some msg)
    (htype : msg.Typ = "move") (hn : (keys s.clients).Nodup) :
    (client.color = "white" ∨ client.color = "black" →
      (handleMessage unmarshal marshal s client msgBytes fails).1.gameState = msg.Fen ∧
      (handleMessage unmarshal marshal s client msgBytes fails).1.moveHistory =
        s.moveHistory ++ [moveRecord client.color msg.From msg.To] ∧
      (handleMessage unmarshal marshal s client msgBytes fails).1.chatHistory =
        s.chatHistory ∧
      (handleMessage unmarshal marshal s client msgBytes fails).2 =
        (keys s.clients).map (fun c => { conn := c, payload := msgBytes }) ∧
      (client.conn ∈ keys s.clients →
        ({ conn := client.conn, payload := msgBytes } : Write) ∈
          (handleMessage unmarshal marshal s client msgBytes fails).2) ∧
      (∀ c ∈ keys s.clients, fails c = false →
        ({ conn := c, payload := msgBytes } : Write) ∈
          delivered fails (handleMessage unmarshal marshal s client msgBytes fails).2) ∧
      (client.conn ∉ keys s.clients →
        ∀ w ∈ (handleMessage unmarshal marshal s client msgBytes fails).2,
          w.conn ≠ client.conn)) ∧
    (client.color = "" →
      handleMessage unmarshal marshal s client msgBytes fails = (s, [])) := by
  rw [handleMessage_of_decoded marshal s client fails hdec,
    dispatch_move marshal s client msgBytes fails htype]
  constructor
  · intro hrole
    rw [if_pos (color_ne_empty_of_player hrole)]
    obtain ⟨h1, _, _, _, f1, f2, f3⟩ := broadcastMessage_effects
      { s with
        gameState := msg.Fen
        moveHistory := s.moveHistory ++ [moveRecord client.color msg.From msg.To] }
      msgBytes fails hn
    refine ⟨f1, f2, f3, h1, ?_, ?_, ?_⟩
    · intro hmem
      rw [h1]
      exact List.mem_map_of_mem _ hmem
    · intro c hc hok
      rw [h1]
      exact mem_delivered_of_ok msgBytes hc hok
    · intro hnot w hw
      rw [h1] at hw
      obtain ⟨c, hc, hcw⟩ := List.mem_map.mp hw
      intro heq
      apply hnot
      rw [← heq, ← hcw]
      exact hc
  · intro hspec
    rw [if_neg (by simp [hspec])]

/-- C3, amended, at `threeClients`: the move of connection 1 ("white"), which is registered,
sets the position to "pos2" and is written to connection 1 as well. -/
theorem move_updates_position_and_relays_witness :
    (keys threeClients.clients).Nodup ∧
    (handleMessage (fun _ => some e2e4) toyMarshal threeClients ⟨1, "white"⟩ "raw"
      (fun _ => false)).1.gameState = "pos2" ∧
    (⟨1, "raw"⟩ : Write) ∈
      (handleMessage (fun _ => some e2e4) toyMarshal threeClients ⟨1, "white"⟩ "raw"
        (fun _ => false)).2 :=
  ⟨by decide,
    ((move_updates_position_and_relays (fun _ => some e2e4) toyMarshal threeClients
      ⟨1, "white"⟩ "raw" e2e4 (fun _ => false) rfl rfl (by decide)).1 (Or.inl rfl)).1,
    ((move_updates_position_and_relays (fun _ => some e2e4) toyMarshal threeClients
      ⟨1, "white"⟩ "raw" e2e4 (fun _ => false) rfl rfl (by decide)).1
        (Or.inl rfl)).2.2.2.2.1 (by decide)⟩

/-- C5: a "restart" message from a sender whose role is "white" or "black" sets the position
to the fixed initial value (the one the session starts with), empties the move log, leaves
the chat log alone and writes the inbound payload unchanged to every registered connection;
from a spectator nothing changes and nothing is written. -/
theorem restart_resets_position_and_moves (unmarshal : String → Option Message)
    (marshal : Message → String) (s : State) (client : Client) (msgBytes : String)
    (msg : Message) (fails : Conn → Bool) (hdec : unmarshal msgBytes = some msg)
    (htype : msg.Typ = "restart") (hn : (keys s.clients).Nodup) :
    (client.color = "white" ∨ client.color = "black" →
      (handleMessage unmarshal marshal s client msgBytes fails).1.gameState =
        "rnbqkbnr/pppppppp/8/8/8/8/PPPPPPPP/RNBQKBNR w KQkq - 0 1" ∧
      (handleMessage unmarshal marshal s client msgBytes fails).1.gameState =
        initState.gameState ∧
      (handleMessage unmarshal marshal s client msgBytes fails).1.moveHistory = [] ∧
      (handleMessage unmarshal marshal s client msgBytes fails).1.chatHistory =
        s.chatHistory ∧
      (handleMessage unmarshal marshal s client msgBytes fails).2 =
        (keys s.clients).map (fun c => { conn := c, payload := msgBytes }) ∧
      (∀ c ∈ keys s.clients, fails c = false →
        ({ conn := c, payload := msgBytes } : Write) ∈
          delivered fails (handleMessage unmarshal marshal s client msgBytes fails).2)) ∧
    (client.color = "" →
      handleMessage unmarshal marshal s client msgBytes fails = (s, [])) := by
  rw [handleMessage_of_decoded marshal s client fails hdec,
    dispatch_restart marshal s client msgBytes fails htype]
  constructor
  · intro hrole
    rw [if_pos (color_ne_empty_of_player hrole)]
    obtain ⟨h1, _, _, h4, f1, f2, f3⟩ := broadcastMessage_effects
      { s with gameState := restartFen, moveHistory := [] } msgBytes fails hn
    exact ⟨f1, f1, f2, f3, h1, h4⟩
  · intro hspec
    rw [if_neg (by simp [hspec])]

/-- C5 at `threeClients` with a move already logged: the restart of connection 2 ("black")
empties the move log. -/
theorem restart_resets_position_and_moves_witness :
    (keys threeClients.clients).Nodup ∧
    (handleMessage (fun _ => some restartMsg) toyMarshal
      { threeClients with gameState := "pos2", moveHistory := ["<p>white: e2-e4</p>"] }
      ⟨2, "black"⟩ "raw" (fun _ => false)).1.moveHistory = [] :=
  ⟨by decide,
    ((restart_resets_position_and_moves (fun _ => some restartMsg) toyMarshal
      { threeClients with gameState := "pos2", moveHistory := ["<p>white: e2-e4</p>"] }
      ⟨2, "black"⟩ "raw" restartMsg (fun _ => false) rfl rfl (by decide)).1
        (Or.inr rfl)).2.2.1⟩

/-- C6: a "chat" message is accepted from every sender, whatever its role: the chat log
gains exactly one record at its end, position and move log are unchanged, one payload is
written once to every registered connection and it is the encoding of the message whose
text field is the appended record; when no write fails the registry and the role slots are
unchanged. -/
theorem chat_always_accepted (unmarshal : String → Option Message)
    (marshal : Message → String) (s : State) (client : Client) (msgBytes : String)
    (msg : Message) (fails : Conn → Bool) (hdec : unmarshal msgBytes = some msg)
    (htype : msg.Typ = "chat") (hn : (keys s.clients).Nodup) :
    ∃ record : String,
      (handleMessage unmarshal marshal s client msgBytes fails).1.chatHistory =
        s.chatHistory ++ [record] ∧
      (handleMessage unmarshal marshal s client msgBytes fails).1.gameState = s.gameState ∧
      (handleMessage unmarshal marshal s client msgBytes fails).1.moveHistory =
        s.moveHistory ∧
      (handleMessage unmarshal marshal s client msgBytes fails).2 =
        (keys s.clients).map
          (fun c => { conn := c, payload := marshal { msg with Message := record } }) ∧
      (∀ c ∈ keys s.clients, fails c = false →
        ({ conn := c, payload := marshal { msg with Message := record } } : Write) ∈
          delivered fails (handleMessage unmarshal marshal s client msgBytes fails).2) ∧
      ((∀ c ∈ keys s.clients, fails c = false) →
        (handleMessage unmarshal marshal s client msgBytes fails).1.clients = s.clients ∧
        (handleMessage unmarshal marshal s client msgBytes fails).1.whiteAssigned =
          s.whiteAssigned ∧
        (handleMessage unmarshal marshal s client msgBytes fails).1.blackAssigned =
          s.blackAssigned) := by
  rw [handleMessage_of_decoded marshal s client fails hdec,
    dispatch_chat marshal s client msgBytes fails htype]
  refine ⟨chatRecord (chatPrefix client) msg.Message, ?_⟩
  obtain ⟨h1, _, _, h4, f1, f2, f3⟩ := broadcastMessage_effects
    { s with chatHistory := s.chatHistory ++ [chatRecord (chatPrefix client) msg.Message] }
    (marshal { msg with Message := chatRecord (chatPrefix client) msg.Message }) fails hn
  refine ⟨f3, f1, f2, h1, h4, ?_⟩
  intro hok
  have hsame := broadcastLoop_no_failure
    (marshal { msg with Message := chatRecord (chatPrefix client) msg.Message }) fails
    (keys s.clients)
    { s with chatHistory := s.chatHistory ++ [chatRecord (chatPrefix client) msg.Message] }
    hok
  unfold broadcastMessage
  rw [hsame]
  exact ⟨rfl, rfl, rfl⟩

/-- C6 at `threeClients`: a chat from the spectator, connection 3, is written to all three
connections. -/
theorem chat_always_accepted_witness :
    (keys threeClients.clients).Nodup ∧
    ((handleMessage (fun _ => some hiMsg) toyMarshal threeClients ⟨3, ""⟩ "raw"
      (fun _ => false)).2.map Write.conn) = [1, 2, 3] := by
  refine ⟨by decide, ?_⟩
  obtain ⟨record, _, _, _, h, _⟩ := chat_always_accepted (fun _ => some hiMsg) toyMarshal
    threeClients ⟨3, ""⟩ "raw" hiMsg (fun _ => false) rfl rfl (by decide)
  rw [h]
  rfl

theorem joinStrings_foldl_data (xs : List String) (acc : String) :
    (xs.foldl (fun a x => a ++ x) acc).data = acc.data ++ (xs.map String.data).flatten := by
  induction xs generalizing acc with
  | nil => simp
  | cons x rest ih =>
    rw [List.foldl_cons, ih]
    simp [String.data_append, List.append_assoc]

/-- C7: the writes made for a freshly accepted connection before its read loop starts are,
in this order and on that connection only, the encoding of a "color" record carrying the
role `register` returned, then the encoding of a "gameState" record whose fen is the current
position and whose moveHistory and chatHistory are the move log and the chat log, each
concatenated in order; sending them changes no variable, so position, move log and chat log
are as before. -/
theorem accept_sends_color_then_snapshot (marshal : Message → String) (s : State)
    (conn : Conn) :
    (acceptConn marshal s conn).2.2 =
      [ { conn := conn, payload := marshal { Typ := "color", Color := (register s conn).1 } },
        { conn := conn
          payload := marshal
            { Typ := "gameState"
              Fen := s.gameState
              MoveHistory := joinStrings s.moveHistory
              ChatHistory := joinStrings s.chatHistory } } ] ∧
    (joinStrings s.moveHistory).data = (s.moveHistory.map String.data).flatten ∧
    (joinStrings s.chatHistory).data = (s.chatHistory.map String.data).flatten ∧
    (acceptConn marshal s conn).1 = { conn := conn, color := (register s conn).1 } ∧
    (acceptConn marshal s conn).2.1 = (register s conn).2 ∧
    (acceptConn marshal s conn).2.1.gameState = s.gameState ∧
    (acceptConn marshal s conn).2.1.moveHistory = s.moveHistory ∧
    (acceptConn marshal s conn).2.1.chatHistory = s.chatHistory := by
  have hj : ∀ xs : List String, (joinStrings xs).data = (xs.map String.data).flatten := by
    intro xs
    unfold joinStrings
    rw [joinStrings_foldl_data]
    rfl
  have hframe : (register s conn).2.gameState = s.gameState ∧
      (register s conn).2.moveHistory = s.moveHistory ∧
      (register s conn).2.chatHistory = s.chatHistory := by
    unfold register assignColor
    cases s.whiteAssigned <;> cases s.blackAssigned <;> exact ⟨rfl, rfl, rfl⟩
  refine ⟨?_, hj _, hj _, rfl, rfl, hframe.1, hframe.2.1, hframe.2.2⟩
  have hg : (register s conn).2.gameState = s.gameState := hframe.1
  have hm : (register s conn).2.moveHistory = s.moveHistory := hframe.2.1
  have hc : (register s conn).2.chatHistory = s.chatHistory := hframe.2.2
  simp only [acceptConn, sendGameState, stateMsg, hg, hm, hc]

/-! ## The rendered records -/

/-- C8, as stated, fails: the record appended for role "white", from "e2", to "e4" is
"<p>white: e2-e4</p>", not "white: e2-e4". -/
theorem move_record_is_not_bare :
    (handleMessage (fun _ => some e2e4) toyMarshal threeClients ⟨1, "white"⟩ "raw"
      (fun _ => false)).1.moveHistory = ["<p>white: e2-e4</p>"] ∧
    (handleMessage (fun _ => some e2e4) toyMarshal threeClients ⟨1, "white"⟩ "raw"
      (fun _ => false)).1.moveHistory ≠
        threeClients.moveHistory ++ ["white" ++ ": " ++ "e2" ++ "-" ++ "e4"] := by
  decide

/-- C8, amended: for every accepted "move" message with sender role r, origin f and
destination t, the record appended to the move log is "<p>" + r + ": " + f + "-" + t +
"</p>"; for role "white", from "e2", to "e4" it is exactly "<p>white: e2-e4</p>". -/
theorem move_record_rendering (unmarshal : String → Option Message)
    (marshal : Message → String) (s : State) (client : Client) (msgBytes : String)
    (msg : Message) (fails : Conn → Bool) (hdec : unmarshal msgBytes = some msg)
    (htype : msg.Typ = "move") (hrole : client.color ≠ "") :
    (handleMessage unmarshal marshal s client msgBytes fails).1.moveHistory =
      s.moveHistory ++ ["<p>" ++ client.color ++ ": " ++ msg.From ++ "-" ++ msg.To ++ "</p>"] ∧
    (client.color = "white" → msg.From = "e2" → msg.To = "e4" →
      (handleMessage unmarshal marshal s client msgBytes fails).1.moveHistory =
        s.moveHistory ++ ["<p>white: e2-e4</p>"]) := by
  rw [handleMessage_of_decoded marshal s client fails hdec,
    dispatch_move marshal s client msgBytes fails htype, if_pos hrole]
  have h : (broadcastMessage
      { s with
        gameState := msg.Fen
        moveHistory := s.moveHistory ++ [moveRecord client.color msg.From msg.To] }
      msgBytes fails).1.moveHistory =
        s.moveHistory ++ [moveRecord client.color msg.From msg.To] :=
    (broadcastLoop_frame msgBytes fails (keys s.clients)
      { s with
        gameState := msg.Fen
        moveHistory := s.moveHistory ++ [moveRecord client.color msg.From msg.To] }).2.1
  refine ⟨h, ?_⟩
  intro hc hf ht
  rw [h, hc, hf, ht]
  rfl

/-- C8, amended, at `threeClients` with "black" moving from "e7" to "e5". -/
theorem move_record_rendering_witness :
    (handleMessage (fun _ => some { e2e4 with From := "e7", To := "e5" }) toyMarshal
      threeClients ⟨2, "black"⟩ "raw" (fun _ => false)).1.moveHistory =
        ["<p>black: e7-e5</p>"] :=
  (move_record_rendering (fun _ => some { e2e4 with From := "e7", To := "e5" }) toyMarshal
    threeClients ⟨2, "black"⟩ "raw" { e2e4 with From := "e7", To := "e5" } (fun _ => false)
    rfl rfl (by decide)).1

/-- C9, as stated, fails: the record appended and relayed for a spectator's chat text "hi"
is "<p>Spectator: hi</p>", not "Spectator: hi". -/
theorem chat_record_is_not_bare :
    (handleMessage (fun _ => some hiMsg) toyMarshal threeClients ⟨3, ""⟩ "raw"
      (fun _ => false)).1.chatHistory = ["<p>Spectator: hi</p>"] ∧
    (handleMessage (fun _ => some hiMsg) toyMarshal threeClients ⟨3, ""⟩ "raw"
      (fun _ => false)).1.chatHistory ≠
        threeClients.chatHistory ++ ["Spectator" ++ ": " ++ "hi"] ∧
    (handleMessage (fun _ => some hiMsg) toyMarshal threeClients ⟨3, ""⟩ "raw"
      (fun _ => false)).2 ≠
        (keys threeClients.clients).map
          (fun c => ⟨c, toyMarshal { hiMsg with Message := "Spectator" ++ ": " ++ "hi" }⟩) := by
  decide

/-- C9, amended: for every sender role and chat text, the record appended to the chat log
and placed in the text field of the relayed message is "<p>" + speaker + ": " + text +
"</p>", where speaker is the role name when the role is not empty and the fixed label
"Spectator" when it is; so a spectator's chat is relayed as "<p>Spectator: " + text +
"</p>". -/
theorem chat_record_rendering (unmarshal : String → Option Message)
    (marshal : Message → String) (s : State) (client : Client) (msgBytes : String)
    (msg : Message) (fails : Conn → Bool) (hdec : unmarshal msgBytes = some msg)
    (htype : msg.Typ = "chat") (hn : (keys s.clients).Nodup) :
    (handleMessage unmarshal marshal s client msgBytes fails).1.chatHistory =
      s.chatHistory ++
        ["<p>" ++ (if client.color = "" then "Spectator" else client.color) ++ ": " ++
          msg.Message ++ "</p>"] ∧
    (handleMessage unmarshal marshal s client msgBytes fails).2 =
      (keys s.clients).map (fun c =>
        { conn := c
          payload := marshal { msg with
            Message := "<p>" ++ (if client.color = "" then "Spectator" else client.color) ++
              ": " ++ msg.Message ++ "</p>" } }) ∧
    (client.color = "" →
      (handleMessage unmarshal marshal s client msgBytes fails).1.chatHistory =
        s.chatHistory ++ ["<p>Spectator: " ++ msg.Message ++ "</p>"]) := by
  rw [handleMessage_of_decoded marshal s client fails hdec,
    dispatch_chat marshal s client msgBytes fails htype]
  have hp : chatRecord (chatPrefix client) msg.Message =
      "<p>" ++ (if client.color = "" then "Spectator" else client.color) ++ ": " ++
        msg.Message ++ "</p>" := by
    unfold chatRecord chatPrefix
    by_cases hc : client.color = "" <;> simp [hc]
  obtain ⟨h1, _, _, _, _, _, f3⟩ := broadcastMessage_effects
    { s with chatHistory := s.chatHistory ++ [chatRecord (chatPrefix client) msg.Message] }
    (marshal { msg with Message := chatRecord (chatPrefix client) msg.Message }) fails hn
  have f3' : (broadcastMessage
      { s with chatHistory := s.chatHistory ++ [chatRecord (chatPrefix client) msg.Message] }
      (marshal { msg with Message := chatRecord (chatPrefix client) msg.Message })
      fails).1.chatHistory =
        s.chatHistory ++ [chatRecord (chatPrefix client) msg.Message] := f3
  rw [← hp]
  refine ⟨f3', h1, ?_⟩
  intro hc
  rw [f3']
  unfold chatRecord chatPrefix
  rw [if_neg (by simp [hc])]
  rfl

/-- C9, amended, at `threeClients` with "white" saying "hi". -/
theorem chat_record_rendering_witness :
    (keys threeClients.clients).Nodup ∧
    (handleMessage (fun _ => some hiMsg) toyMarshal threeClients ⟨1, "white"⟩ "raw"
      (fun _ => false)).1.chatHistory = ["<p>white: hi</p>"] :=
  ⟨by decide,
    (chat_record_rendering (fun _ => some hiMsg) toyMarshal threeClients ⟨1, "white"⟩ "raw"
      hiMsg (fun _ => false) rfl rfl (by decide)).1.trans (by decide)⟩

/-! ## Keepalive -/

theorem connStep_silent (conn : Conn) (s : State) (t : ConnTimers)
    (ht : t.readDeadline = none) (now : Nat) :
    (connStep conn (connStep conn (s, t) (.tick now false)) (.idle now)).1 = s ∧
    (connStep conn (connStep conn (s, t) (.tick now false)) (.idle now)).2.readDeadline =
      none ∧
    (connStep conn (connStep conn (s, t) (.tick now false)) (.idle now)).2.reading =
      t.reading := by
  cases hp : t.pinging <;> cases hr : t.reading <;>
    simp [connStep, readTimedOut, hp, hr, ht]

theorem silentEvents_foldl (conn : Conn) (times : List Nat) (s : State) (t : ConnTimers)
    (ht : t.readDeadline = none) :
    ((silentEvents times).foldl (connStep conn) (s, t)).1 = s ∧
    ((silentEvents times).foldl (connStep conn) (s, t)).2.readDeadline = none := by
  induction times generalizing t with
  | nil => exact ⟨rfl, ht⟩
  | cons now rest ih =>
    obtain ⟨h1, h2, _⟩ := connStep_silent conn s t ht now
    have hstep : (silentEvents (now :: rest)).foldl (connStep conn) (s, t) =
        (silentEvents rest).foldl (connStep conn)
          (connStep conn (connStep conn (s, t) (.tick now false)) (.idle now)) := by
      simp [silentEvents, List.flatMap_cons, List.foldl_append]
    rw [hstep]
    have hpair : connStep conn (connStep conn (s, t) (.tick now false)) (.idle now) =
        (s, (connStep conn (connStep conn (s, t) (.tick now false)) (.idle now)).2) :=
      Prod.ext h1 rfl
    rw [hpair]
    exact ih _ h2

/-- C10, on the code: connection 1 registers on the initial state and then stays silent
(every ping is written without error, no data and no pong arrive). Whatever the times at
which it is observed, also long after `pingPeriod + pongWait` = 130 seconds, no read
deadline is in force and it is still registered as "white"; the pong handler is what arms
the deadline: after one pong at time 0, silence until time 70 gets it removed. -/
theorem silent_peer_is_never_removed (times : List Nat) :
    pingPeriod < pongWait ∧ pingPeriod + pongWait = 130 ∧
    ((silentEvents times).foldl (connStep 1)
      ((register initState 1).2, freshTimers)).2.readDeadline = none ∧
    mapLookup 1 ((silentEvents times).foldl (connStep 1)
      ((register initState 1).2, freshTimers)).1.clients = some ⟨1, "white"⟩ ∧
    ((silentEvents times).foldl (connStep 1)
      ((register initState 1).2, freshTimers)).1.whiteAssigned = true ∧
    mapLookup 1 (connStep 1 (connStep 1 ((register initState 1).2, freshTimers) (.pong 0))
      (.idle 70)).1.clients = none := by
  obtain ⟨h1, h2⟩ := silentEvents_foldl 1 times (register initState 1).2 freshTimers rfl
  rw [h1]
  exact ⟨by decide, by decide, h2, by decide, by decide, by decide⟩


end ChessGameGo
